import Mathlib

/-!
Verification development for the asynchronous task-execution and
reliable-delivery engine of this repository.

The development shallowly embeds four parts of the source:

* `CallbackRetry` — the retry loop `callbackWithRetry` of
  `src/main-server/src/utils/callback.js` (lines 130-268) together with the
  pending-callbacks counter of that file.
* `BlockWait` — the function `handleMessageFromMqWithBlockWait` of the
  unnamed core module (`src/unnamed/part_000`, lines 561-597).
* `BlockGateRace` — an interleaving model of the race between
  `handleMessageFromMqWithBlockWait` and the block-advance sweep
  `processMessageInBlocks` (same module, lines 599-626), for one message.
* `TaskQueue` — the per-key task queue of the same module (lines 683-846).
-/

namespace CallbackRetry

/-- Kind of a failed `httpPost` attempt.  `maxSize` models a node-fetch
`FetchError` with `error.type === 'max-size'` (response body over the
`RESPONSE_BODY_SIZE_LIMIT` of 3 MiB); `other` models every other thrown
transport error. -/
inductive FailKind where
  | maxSize
  | other
  deriving DecidableEq, Repr

/-- Result of one `httpPost` attempt: either the promise resolved (the
engine treats "did not throw" as attempt success; `status` is the HTTP
status code and `bodyNonEmpty` is `responseObj.body !== ''`), or it threw
with the given kind. -/
inductive AttemptResult where
  | success (status : Nat) (bodyNonEmpty : Bool)
  | failure (kind : FailKind)
  deriving DecidableEq, Repr

/-- Outcome of evaluating the should-retry decision function
`getShouldRetryFn(shouldRetryFnName)(...shouldRetryArguments)`.  `throws`
models the function itself throwing; `returns b` models a normal return. -/
inductive PredOutcome where
  | throws
  | returns (b : Bool)
  deriving DecidableEq, Repr

/-- One iteration of the `for (;;)` loop of `callbackWithRetry`, seen
from the outside: the value of the global `stopCallbackRetry` flag at the
loop-top check, the attempt's result, the value of the stop flag when the
attempt's continuation runs (the flag may be raised by
`stopAllCallbackRetries` while the attempt is in network flight), the
predicate outcome (consulted only on a non-max-size failure when a
predicate name was supplied), the `Date.now()` reading at the catch-branch
decision, and the `backoff.next()` value (jittered, hence an input). -/
structure RetryIter where
  stopAtCheck : Bool
  attempt : AttemptResult
  stopAfterAttempt : Bool
  predicate : PredOutcome
  now : Nat
  nextRetry : Nat
  deriving DecidableEq, Repr

/-- Static arguments of one `callbackWithRetry` run.  `hasShouldRetryFn`
is the truthiness of `shouldRetryFnName`, `hasResponseCallbackFn` that of
`responseCallbackFnName`; `callbackRetryTimeoutMs` is
`config.callbackRetryTimeout * 1000`; `startTime` is the `Date.now()`
taken before the loop; `deadline` is the optional absolute deadline
argument. -/
structure RetryConfig where
  hasShouldRetryFn : Bool
  hasResponseCallbackFn : Bool
  deadline : Option Nat
  callbackRetryTimeoutMs : Nat
  startTime : Nat
  deriving DecidableEq, Repr

/-- How one run of the loop ended. `exhausted` means the supplied trace
ran out while the loop would have kept retrying (the loop is still in
flight). -/
inductive LoopOutcome where
  | stopped
  | succeeded
  | bodyTooLarge
  | predicateVeto
  | timedOut
  | exhausted
  deriving DecidableEq, Repr

/-- An invocation of the response handler
`getResponseCallbackFn(responseCallbackFnName)(...)`: either with the
success response object or with a `BODY_TOO_LARGE` `CustomError`. -/
inductive HandlerCall where
  | successResponse (status : Nat)
  | bodyTooLargeError
  deriving DecidableEq, Repr

/-- Metric events emitted through `metricsEventEmitter` by the loop. -/
inductive Metric where
  | callbackTime
  | callbackFail
  | callbackTimedOut
  deriving DecidableEq, Repr

/-- Accumulated observable effects of one run of the retry loop.
`attempts` counts `httpPost` calls; `recordDeleted` records whether
`cacheDb.removeCallbackWithRetryData` was called; `deletedWhileStopped`
records whether that deletion happened at a moment when the global stop
flag was already raised; `pendingDecrements` counts calls to
`decrementPendingCallbacksCount`. -/
structure RetryEffects where
  attempts : Nat
  recordDeleted : Bool
  deletedWhileStopped : Bool
  handlerCalls : List HandlerCall
  metrics : List Metric
  pendingDecrements : Nat
  outcome : LoopOutcome
  deriving DecidableEq, Repr

/-- Effects of reaching the loop-top check with the stop flag raised:
`return` with no attempt, no deletion, no decrement (callback.js line
159). -/
def stoppedEffects : RetryEffects :=
  { attempts := 0, recordDeleted := false, deletedWhileStopped := false,
    handlerCalls := [], metrics := [], pendingDecrements := 0,
    outcome := .stopped }

/-- Effects of a trace that ran out with the loop still retrying. -/
def exhaustedEffects : RetryEffects :=
  { attempts := 0, recordDeleted := false, deletedWhileStopped := false,
    handlerCalls := [], metrics := [], pendingDecrements := 0,
    outcome := .exhausted }

/-- The guard of the deadline wrapper `if (!deadline || Date.now() < deadline)`
around the timeout check (callback.js line 239). -/
def deadlineWindowOpen (cfg : RetryConfig) (now : Nat) : Bool :=
  match cfg.deadline with
  | none => true
  | some d => now < d

/-- The timeout condition
`Date.now() - startTime + nextRetry > config.callbackRetryTimeout * 1000`
(callback.js lines 240-243). -/
def timeoutExceeded (cfg : RetryConfig) (now nextRetry : Nat) : Bool :=
  now - cfg.startTime + nextRetry > cfg.callbackRetryTimeoutMs

/-- The value assigned to `shouldRetry` on a non-max-size failure when a
predicate name is supplied: the predicate's return value, or `true` when
the predicate itself throws (callback.js lines 218-231). -/
def shouldRetryValue (p : PredOutcome) : Bool :=
  match p with
  | .throws => true
  | .returns b => b

/-- The `for (;;)` loop body of `callbackWithRetry` (callback.js lines
158-267), run over a trace of iteration observations.  Each constructor
branch is translated from the corresponding source branch; the
continue-and-sleep path recurses on the rest of the trace and adds the
current attempt to the count. -/
def callbackWithRetryLoop (cfg : RetryConfig) : List RetryIter → RetryEffects
  | [] => exhaustedEffects
  | it :: rest =>
    if it.stopAtCheck then stoppedEffects
    else
      match it.attempt with
      | .success status _ =>
        { attempts := 1, recordDeleted := true,
          deletedWhileStopped := it.stopAfterAttempt,
          handlerCalls :=
            if cfg.hasResponseCallbackFn then [.successResponse status] else [],
          metrics := [.callbackTime], pendingDecrements := 1,
          outcome := .succeeded }
      | .failure .maxSize =>
        { attempts := 1, recordDeleted := true,
          deletedWhileStopped := it.stopAfterAttempt,
          handlerCalls :=
            if cfg.hasResponseCallbackFn then [.bodyTooLargeError] else [],
          metrics := [.callbackFail], pendingDecrements := 1,
          outcome := .bodyTooLarge }
      | .failure .other =>
        if cfg.hasShouldRetryFn then
          if shouldRetryValue it.predicate then
            let e := callbackWithRetryLoop cfg rest
            { e with attempts := e.attempts + 1 }
          else
            { attempts := 1, recordDeleted := true,
              deletedWhileStopped := it.stopAfterAttempt,
              handlerCalls := [], metrics := [.callbackFail],
              pendingDecrements := 1, outcome := .predicateVeto }
        else
          if deadlineWindowOpen cfg it.now &&
              timeoutExceeded cfg it.now it.nextRetry then
            { attempts := 1, recordDeleted := true,
              deletedWhileStopped := it.stopAfterAttempt,
              handlerCalls := [], metrics := [.callbackTimedOut],
              pendingDecrements := 1, outcome := .timedOut }
          else
            let e := callbackWithRetryLoop cfg rest
            { e with attempts := e.attempts + 1 }

/-- Whether processing iteration `it` falls through to the backoff sleep
and the next loop iteration (no `return` taken in the body). -/
def iterContinues (cfg : RetryConfig) (it : RetryIter) : Bool :=
  !it.stopAtCheck &&
  match it.attempt with
  | .success _ _ => false
  | .failure .maxSize => false
  | .failure .other =>
    if cfg.hasShouldRetryFn then shouldRetryValue it.predicate
    else !(deadlineWindowOpen cfg it.now && timeoutExceeded cfg it.now it.nextRetry)

/-- The full `callbackWithRetry` function increments
`pendingCallbacksCount` exactly once on entry (line 140) and then runs the
loop; this wrapper records that single increment. -/
structure RetryRun where
  pendingIncrements : Nat
  loopEffects : RetryEffects
  deriving DecidableEq, Repr

/-- One run of `callbackWithRetry` (callback.js lines 130-268). -/
def callbackWithRetry (cfg : RetryConfig) (trace : List RetryIter) : RetryRun :=
  { pendingIncrements := 1, loopEffects := callbackWithRetryLoop cfg trace }

/-- Terminal outcomes: the loop returned after reaching a definitive
result for this delivery. -/
def LoopOutcome.isTerminal : LoopOutcome → Bool
  | .succeeded => true
  | .bodyTooLarge => true
  | .predicateVeto => true
  | .timedOut => true
  | .stopped => false
  | .exhausted => false

/-- Net change a finished run leaves on `pendingCallbacksCount`. -/
def RetryRun.pendingDelta (r : RetryRun) : Int :=
  (r.pendingIncrements : Int) - (r.loopEffects.pendingDecrements : Int)

/-- Value of `pendingCallbacksCount` after a collection of runs, starting
from zero. -/
def pendingCallbacksCountAfter (runs : List RetryRun) : Int :=
  (runs.map RetryRun.pendingDelta).sum

/-- Monotonicity of the observed global stop flag along a trace: once
`stopCallbackRetry` is seen `true` it is never seen `false` again (the
source only ever assigns `true` to it, in `stopAllCallbackRetries`). -/
def stopFlagsMonotone : List RetryIter → Bool
  | [] => true
  | [it] => !it.stopAtCheck || it.stopAfterAttempt
  | it :: it' :: rest =>
    (!it.stopAtCheck || it.stopAfterAttempt) &&
    (!it.stopAfterAttempt || it'.stopAtCheck) &&
    stopFlagsMonotone (it' :: rest)

/-- Helper: a continuing iteration contributes exactly one attempt and
nothing else to the run's effects. -/
theorem loop_cons_continues (cfg : RetryConfig) (it : RetryIter)
    (rest : List RetryIter) (h : iterContinues cfg it = true) :
    callbackWithRetryLoop cfg (it :: rest) =
      { callbackWithRetryLoop cfg rest with
        attempts := (callbackWithRetryLoop cfg rest).attempts + 1 } := by
  rcases it with ⟨sc, att, sa, p, now, nr⟩
  simp only [iterContinues, Bool.and_eq_true, Bool.not_eq_true'] at h
  obtain ⟨hsc, hatt⟩ := h
  subst hsc
  cases att with
  | success s b => simp at hatt
  | failure k =>
    cases k with
    | maxSize => simp at hatt
    | other =>
      by_cases hp : cfg.hasShouldRetryFn = true
      · have hpred : shouldRetryValue p = true := by simpa [hp] using hatt
        simp [callbackWithRetryLoop, hp, hpred]
      · have hp' : cfg.hasShouldRetryFn = false := by
          simpa [Bool.not_eq_true] using hp
        have hg : (deadlineWindowOpen cfg now && timeoutExceeded cfg now nr)
            = false := by
          have h2 := hatt
          simp only [hp', Bool.false_eq_true, if_false] at h2
          simp only [Bool.not_eq_true'] at h2
          exact h2
        simp [callbackWithRetryLoop, hp', hg]

/-- Helper: a whole block of continuing iterations contributes only its
length in attempts. -/
theorem loop_append_continues (cfg : RetryConfig) (pre rest : List RetryIter)
    (h : ∀ it ∈ pre, iterContinues cfg it = true) :
    callbackWithRetryLoop cfg (pre ++ rest) =
      { callbackWithRetryLoop cfg rest with
        attempts := (callbackWithRetryLoop cfg rest).attempts + pre.length } := by
  induction pre with
  | nil => simp
  | cons it pre ih =>
    have hit : iterContinues cfg it = true := h it (List.mem_cons_self it pre)
    have hrest : ∀ x ∈ pre, iterContinues cfg x = true :=
      fun x hx => h x (List.mem_cons_of_mem it hx)
    rw [List.cons_append, loop_cons_continues cfg it (pre ++ rest) hit, ih hrest]
    simp only [List.length_cons]
    rw [Nat.add_assoc]

/-- Helper: `pendingDecrements` is `1` exactly on terminal outcomes and
`0` otherwise. -/
theorem loop_decrements_eq (cfg : RetryConfig) (trace : List RetryIter) :
    (callbackWithRetryLoop cfg trace).pendingDecrements =
      (if (callbackWithRetryLoop cfg trace).outcome.isTerminal then 1 else 0) := by
  induction trace with
  | nil => simp [callbackWithRetryLoop, exhaustedEffects, LoopOutcome.isTerminal]
  | cons it rest ih =>
    rcases it with ⟨sc, att, sa, p, now, nr⟩
    cases sc with
    | true => simp [callbackWithRetryLoop, stoppedEffects, LoopOutcome.isTerminal]
    | false =>
      cases att with
      | success s b => simp [callbackWithRetryLoop, LoopOutcome.isTerminal]
      | failure k =>
        cases k with
        | maxSize => simp [callbackWithRetryLoop, LoopOutcome.isTerminal]
        | other =>
          by_cases hp : cfg.hasShouldRetryFn = true
          · by_cases hsr : shouldRetryValue p = true
            · simpa [callbackWithRetryLoop, hp, hsr] using ih
            · simp [callbackWithRetryLoop, hp, hsr, LoopOutcome.isTerminal]
          · have hp' : cfg.hasShouldRetryFn = false := by
              simpa [Bool.not_eq_true] using hp
            by_cases hg : (deadlineWindowOpen cfg now &&
                timeoutExceeded cfg now nr) = true
            · simp [callbackWithRetryLoop, hp', hg, LoopOutcome.isTerminal]
            · have hg' : (deadlineWindowOpen cfg now &&
                  timeoutExceeded cfg now nr) = false := by
                simpa [Bool.not_eq_true] using hg
              simpa [callbackWithRetryLoop, hp', hg'] using ih

/-- Claim C6: for every retry delivery whose HTTP attempt fails with a
max-size fetch error (response body over the 3 MiB
`RESPONSE_BODY_SIZE_LIMIT`), the retry loop treats the failure as
terminal: the persisted retry record is deleted, the response handler
(when supplied) is invoked exactly once with a `BODY_TOO_LARGE` error, a
`callbackFail` metric is emitted, and no further delivery attempts are
made for that record — regardless of how many retrying failures preceded
it and of anything after it in the trace. -/
theorem callbackWithRetry_maxSize_terminal (cfg : RetryConfig)
    (pre rest : List RetryIter) (it : RetryIter)
    (hpre : ∀ x ∈ pre, iterContinues cfg x = true)
    (hstop : it.stopAtCheck = false)
    (hatt : it.attempt = .failure .maxSize) :
    callbackWithRetryLoop cfg (pre ++ it :: rest) =
      { attempts := pre.length + 1, recordDeleted := true,
        deletedWhileStopped := it.stopAfterAttempt,
        handlerCalls :=
          if cfg.hasResponseCallbackFn then [.bodyTooLargeError] else [],
        metrics := [.callbackFail], pendingDecrements := 1,
        outcome := .bodyTooLarge } := by
  rw [loop_append_continues cfg pre (it :: rest) hpre]
  simp [callbackWithRetryLoop, hstop, hatt, Nat.add_comm]

/-- Witness for `callbackWithRetry_maxSize_terminal`: a delivery whose
first attempt fails retryably and whose second attempt fails with a
max-size error ends as a terminal `bodyTooLarge` failure after exactly two
attempts, with the record deleted and the handler called once. -/
theorem callbackWithRetry_maxSize_terminal_witness :
    callbackWithRetryLoop
      { hasShouldRetryFn := false, hasResponseCallbackFn := true,
        deadline := none, callbackRetryTimeoutMs := 600000, startTime := 0 }
      ([⟨false, .failure .other, false, .returns true, 100, 5000⟩] ++
        ⟨false, .failure .maxSize, false, .returns true, 5200, 10000⟩ :: []) =
      { attempts := 2, recordDeleted := true, deletedWhileStopped := false,
        handlerCalls := [.bodyTooLargeError], metrics := [.callbackFail],
        pendingDecrements := 1, outcome := .bodyTooLarge } :=
  callbackWithRetry_maxSize_terminal
    { hasShouldRetryFn := false, hasResponseCallbackFn := true,
      deadline := none, callbackRetryTimeoutMs := 600000, startTime := 0 }
    [⟨false, .failure .other, false, .returns true, 100, 5000⟩] []
    ⟨false, .failure .maxSize, false, .returns true, 5200, 10000⟩
    (by decide) (by decide) (by decide)

/-- Claim C7: for every retry delivery with a should-retry predicate
supplied, if after a failed (non-max-size) attempt the predicate returns
`false`, the retry loop terminates immediately as a terminal failure: the
persisted record is deleted, a `callbackFail` metric is emitted, the
response handler is not invoked, and no further HTTP attempts occur. -/
theorem callbackWithRetry_predicateVeto_terminal (cfg : RetryConfig)
    (pre rest : List RetryIter) (it : RetryIter)
    (hpre : ∀ x ∈ pre, iterContinues cfg x = true)
    (hstop : it.stopAtCheck = false)
    (hatt : it.attempt = .failure .other)
    (hfn : cfg.hasShouldRetryFn = true)
    (hpred : it.predicate = .returns false) :
    callbackWithRetryLoop cfg (pre ++ it :: rest) =
      { attempts := pre.length + 1, recordDeleted := true,
        deletedWhileStopped := it.stopAfterAttempt,
        handlerCalls := [], metrics := [.callbackFail],
        pendingDecrements := 1, outcome := .predicateVeto } := by
  rw [loop_append_continues cfg pre (it :: rest) hpre]
  simp [callbackWithRetryLoop, hstop, hatt, hfn, hpred, shouldRetryValue,
    Nat.add_comm]

/-- Witness for `callbackWithRetry_predicateVeto_terminal`: a predicate
returning `false` after the very first failure yields exactly one HTTP
attempt, with the record deleted and no further retries. -/
theorem callbackWithRetry_predicateVeto_terminal_witness :
    callbackWithRetryLoop
      { hasShouldRetryFn := true, hasResponseCallbackFn := true,
        deadline := none, callbackRetryTimeoutMs := 600000, startTime := 0 }
      ([] ++ ⟨false, .failure .other, false, .returns false, 100, 5000⟩ :: []) =
      { attempts := 1, recordDeleted := true, deletedWhileStopped := false,
        handlerCalls := [], metrics := [.callbackFail],
        pendingDecrements := 1, outcome := .predicateVeto } :=
  callbackWithRetry_predicateVeto_terminal
    { hasShouldRetryFn := true, hasResponseCallbackFn := true,
      deadline := none, callbackRetryTimeoutMs := 600000, startTime := 0 }
    [] [] ⟨false, .failure .other, false, .returns false, 100, 5000⟩
    (by decide) (by decide) (by decide) (by decide) (by decide)

/-- Claim C9: if evaluating the should-retry predicate itself throws after
a failed (non-max-size) attempt, `callbackWithRetry` treats the outcome as
"should retry" and continues the loop with the next backoff: the iteration
contributes exactly one attempt and leaves every other effect — in
particular the persisted record — untouched. -/
theorem callbackWithRetry_predicateThrows_retries (cfg : RetryConfig)
    (rest : List RetryIter) (it : RetryIter)
    (hstop : it.stopAtCheck = false)
    (hatt : it.attempt = .failure .other)
    (hfn : cfg.hasShouldRetryFn = true)
    (hpred : it.predicate = .throws) :
    callbackWithRetryLoop cfg (it :: rest) =
      { callbackWithRetryLoop cfg rest with
        attempts := (callbackWithRetryLoop cfg rest).attempts + 1 } := by
  apply loop_cons_continues
  rcases it with ⟨sc, att, sa, p, now, nr⟩
  simp only at hstop hatt hpred
  simp [iterContinues, hstop, hatt, hpred, hfn, shouldRetryValue]

/-- Witness for `callbackWithRetry_predicateThrows_retries`: with a
throwing predicate, a failed first attempt is followed by a second
attempt; nothing is deleted and no terminal outcome is reached when the
second attempt is still outstanding. -/
theorem callbackWithRetry_predicateThrows_retries_witness :
    callbackWithRetryLoop
      { hasShouldRetryFn := true, hasResponseCallbackFn := false,
        deadline := none, callbackRetryTimeoutMs := 600000, startTime := 0 }
      (⟨false, .failure .other, false, .throws, 100, 5000⟩ :: []) =
      { callbackWithRetryLoop
          { hasShouldRetryFn := true, hasResponseCallbackFn := false,
            deadline := none, callbackRetryTimeoutMs := 600000,
            startTime := 0 } [] with
        attempts :=
          (callbackWithRetryLoop
            { hasShouldRetryFn := true, hasResponseCallbackFn := false,
              deadline := none, callbackRetryTimeoutMs := 600000,
              startTime := 0 } []).attempts + 1 } :=
  callbackWithRetry_predicateThrows_retries
    { hasShouldRetryFn := true, hasResponseCallbackFn := false,
      deadline := none, callbackRetryTimeoutMs := 600000, startTime := 0 }
    [] ⟨false, .failure .other, false, .throws, 100, 5000⟩
    (by decide) (by decide) (by decide) (by decide)

/-- Concrete configuration used to exhibit the past-deadline behavior of
the timeout check: an absolute deadline of `1000` and a total-retry
timeout of `10000` milliseconds. -/
def pastDeadlineCfg : RetryConfig :=
  { hasShouldRetryFn := false, hasResponseCallbackFn := false,
    deadline := some 1000, callbackRetryTimeoutMs := 10000, startTime := 0 }

/-- Concrete iteration whose failure happens after the deadline has
passed and whose elapsed time plus next backoff exceeds the configured
timeout. -/
def pastDeadlineIter : RetryIter :=
  { stopAtCheck := false, attempt := .failure .other,
    stopAfterAttempt := false, predicate := .returns true,
    now := 2000, nextRetry := 20000 }

/-- Counterexample to claim C4 as stated: at this predicate-less input the
elapsed time since the first attempt plus the next backoff (`2000 + 20000`)
exceeds the configured total-retry timeout (`10000`), and the current time
(`2000`) also exceeds the explicit absolute deadline (`1000`) — yet the
loop does not terminate with a timed-out failure and does not delete the
record: the `Date.now() < deadline` wrapper around the timeout check is
false, so the check is skipped and the loop keeps retrying. -/
theorem callbackWithRetry_timeout_counterexample :
    pastDeadlineIter.now - pastDeadlineCfg.startTime + pastDeadlineIter.nextRetry >
        pastDeadlineCfg.callbackRetryTimeoutMs ∧
    pastDeadlineCfg.deadline = some 1000 ∧ 1000 ≤ pastDeadlineIter.now ∧
    pastDeadlineCfg.hasShouldRetryFn = false ∧
    (callbackWithRetryLoop pastDeadlineCfg [pastDeadlineIter]).outcome ≠
        .timedOut ∧
    (callbackWithRetryLoop pastDeadlineCfg [pastDeadlineIter]).recordDeleted =
        false := by
  decide

/-- Claim C4 (amended): for a predicate-less retry delivery, the loop
terminates with a "timed out" terminal failure — deleting the persisted
record and emitting a `callbackTimedOut` metric — exactly when, at a
failed attempt, either no absolute deadline was provided or the current
time is still before the provided deadline, and the elapsed time since the
first attempt plus the next computed backoff exceeds the configured
total-retry timeout.  Once the current time passes a provided deadline the
timeout check is skipped and the loop retries unboundedly, so the elapsed
retry time is bounded by the timeout only in the no-deadline (or
pre-deadline) regime: in a deadline-less run, every iteration that falls
through to the next backoff sleep satisfies
`now - startTime + nextRetry ≤ callbackRetryTimeout`. -/
theorem callbackWithRetry_timeout_behavior :
    (∀ (cfg : RetryConfig) (pre rest : List RetryIter) (it : RetryIter),
      (∀ x ∈ pre, iterContinues cfg x = true) →
      it.stopAtCheck = false → it.attempt = .failure .other →
      cfg.hasShouldRetryFn = false →
      deadlineWindowOpen cfg it.now = true →
      timeoutExceeded cfg it.now it.nextRetry = true →
      callbackWithRetryLoop cfg (pre ++ it :: rest) =
        { attempts := pre.length + 1, recordDeleted := true,
          deletedWhileStopped := it.stopAfterAttempt, handlerCalls := [],
          metrics := [.callbackTimedOut], pendingDecrements := 1,
          outcome := .timedOut }) ∧
    (∀ (cfg : RetryConfig) (rest : List RetryIter) (it : RetryIter) (d : Nat),
      cfg.deadline = some d → d ≤ it.now →
      it.stopAtCheck = false → it.attempt = .failure .other →
      cfg.hasShouldRetryFn = false →
      callbackWithRetryLoop cfg (it :: rest) =
        { callbackWithRetryLoop cfg rest with
          attempts := (callbackWithRetryLoop cfg rest).attempts + 1 }) ∧
    (∀ (cfg : RetryConfig) (it : RetryIter),
      cfg.deadline = none → cfg.hasShouldRetryFn = false →
      it.attempt = .failure .other → iterContinues cfg it = true →
      it.now - cfg.startTime + it.nextRetry ≤ cfg.callbackRetryTimeoutMs) := by
  refine ⟨?_, ?_, ?_⟩
  · intro cfg pre rest it hpre hstop hatt hfn hwin htime
    rw [loop_append_continues cfg pre (it :: rest) hpre]
    simp [callbackWithRetryLoop, hstop, hatt, hfn, hwin, htime, Nat.add_comm]
  · intro cfg rest it d hd hle hstop hatt hfn
    apply loop_cons_continues
    rcases it with ⟨sc, att, sa, p, now, nr⟩
    simp only at hstop hatt hle
    simp [iterContinues, hstop, hatt, hfn, deadlineWindowOpen, hd]
    omega
  · intro cfg it hd hfn hatt hcont
    rcases it with ⟨sc, att, sa, p, now, nr⟩
    simp only at hatt
    subst hatt
    simp only [iterContinues, hfn, Bool.false_eq_true, if_false,
      Bool.and_eq_true, Bool.not_eq_true'] at hcont
    obtain ⟨-, hcont⟩ := hcont
    have hopen : deadlineWindowOpen cfg now = true := by
      simp [deadlineWindowOpen, hd]
    rw [hopen, Bool.true_and] at hcont
    simp only [timeoutExceeded, decide_eq_false_iff_not, not_lt] at hcont
    exact hcont

/-- Witness for `callbackWithRetry_timeout_behavior`: a deadline-less
delivery whose second failure would overrun the timeout budget ends as a
terminal timed-out failure after exactly two attempts, with the record
deleted. -/
theorem callbackWithRetry_timeout_behavior_witness :
    callbackWithRetryLoop
      { hasShouldRetryFn := false, hasResponseCallbackFn := false,
        deadline := none, callbackRetryTimeoutMs := 10000, startTime := 0 }
      ([⟨false, .failure .other, false, .returns true, 100, 5000⟩] ++
        ⟨false, .failure .other, false, .returns true, 5200, 10000⟩ :: []) =
      { attempts := 2, recordDeleted := true, deletedWhileStopped := false,
        handlerCalls := [], metrics := [.callbackTimedOut],
        pendingDecrements := 1, outcome := .timedOut } :=
  callbackWithRetry_timeout_behavior.1
    { hasShouldRetryFn := false, hasResponseCallbackFn := false,
      deadline := none, callbackRetryTimeoutMs := 10000, startTime := 0 }
    [⟨false, .failure .other, false, .returns true, 100, 5000⟩] []
    ⟨false, .failure .other, false, .returns true, 5200, 10000⟩
    (by decide) (by decide) (by decide) (by decide) (by decide) (by decide)

/-- Concrete trace exhibiting a deletion after the stop signal: the stop
flag is raised while the only attempt is in network flight (false at the
loop-top check, true when the attempt's continuation runs) and the attempt
succeeds. -/
def stopMidFlightTrace : List RetryIter :=
  [{ stopAtCheck := false, attempt := .success 200 true,
     stopAfterAttempt := true, predicate := .returns true,
     now := 100, nextRetry := 5000 }]

/-- Concrete configuration for `stopMidFlightTrace`. -/
def stopMidFlightCfg : RetryConfig :=
  { hasShouldRetryFn := false, hasResponseCallbackFn := true,
    deadline := none, callbackRetryTimeoutMs := 600000, startTime := 0 }

/-- Counterexample to claim C5 as stated: the stop-flag schedule is
monotone (the signal is raised exactly once, during the in-flight
attempt), yet the loop deletes the persisted retry record at a moment when
the stop signal is already raised, and it does not exit at the start of
its next iteration — it returns through the success path.  The stop flag
is checked only at the top of the loop, so an iteration already past that
check completes its handling even after `stopAllCallbackRetries`. -/
theorem callbackWithRetry_stop_counterexample :
    stopFlagsMonotone stopMidFlightTrace = true ∧
    (callbackWithRetryLoop stopMidFlightCfg stopMidFlightTrace).recordDeleted =
        true ∧
    (callbackWithRetryLoop stopMidFlightCfg
        stopMidFlightTrace).deletedWhileStopped = true ∧
    (callbackWithRetryLoop stopMidFlightCfg stopMidFlightTrace).outcome ≠
        .stopped := by
  decide

/-- Claim C5 (amended): after `stopAllCallbackRetries` raises the global
stop signal, every retry loop that reaches its loop-top check exits there
immediately — performing no attempt at that iteration and none afterwards,
deleting nothing and emitting nothing, regardless of what the rest of the
trace would have held — so records of loops halted at the check are
preserved for resumption after restart.  (An iteration whose attempt was
already in flight when the signal was raised still completes its handling,
and a terminal outcome reached there still deletes the record; see
`callbackWithRetry_stop_counterexample`.) -/
theorem callbackWithRetry_stop_halts (cfg : RetryConfig)
    (pre rest : List RetryIter) (it : RetryIter)
    (hpre : ∀ x ∈ pre, iterContinues cfg x = true)
    (hstop : it.stopAtCheck = true) :
    callbackWithRetryLoop cfg (pre ++ it :: rest) =
      { attempts := pre.length, recordDeleted := false,
        deletedWhileStopped := false, handlerCalls := [], metrics := [],
        pendingDecrements := 0, outcome := .stopped } := by
  rw [loop_append_continues cfg pre (it :: rest) hpre]
  simp [callbackWithRetryLoop, hstop, stoppedEffects]

/-- Witness for `callbackWithRetry_stop_halts`: a loop that observes the
stop flag at its second check exits with exactly one attempt made, its
record intact, and no terminal outcome, even though the rest of the trace
held a successful attempt. -/
theorem callbackWithRetry_stop_halts_witness :
    callbackWithRetryLoop
      { hasShouldRetryFn := false, hasResponseCallbackFn := true,
        deadline := none, callbackRetryTimeoutMs := 600000, startTime := 0 }
      ([⟨false, .failure .other, false, .returns true, 100, 5000⟩] ++
        ⟨true, .success 200 true, true, .returns true, 5200, 10000⟩ ::
          [⟨true, .success 200 true, true, .returns true, 9000, 20000⟩]) =
      { attempts := 1, recordDeleted := false, deletedWhileStopped := false,
        handlerCalls := [], metrics := [], pendingDecrements := 0,
        outcome := .stopped } :=
  callbackWithRetry_stop_halts
    { hasShouldRetryFn := false, hasResponseCallbackFn := true,
      deadline := none, callbackRetryTimeoutMs := 600000, startTime := 0 }
    [⟨false, .failure .other, false, .returns true, 100, 5000⟩]
    [⟨true, .success 200 true, true, .returns true, 9000, 20000⟩]
    ⟨true, .success 200 true, true, .returns true, 5200, 10000⟩
    (by decide) (by decide)

/-- Claim C10: `pendingCallbacksCount` is incremented exactly once on
entry to each `callbackWithRetry` run and decremented exactly once when
the run's loop reaches a terminal outcome (success, oversized body,
predicate veto, or timeout); a loop that exits on the global stop flag (or
is still in flight) performs no decrement, so over any collection of runs
that have all either reached a terminal outcome or been halted by the stop
signal, the counter's final value is exactly the number of halted runs. -/
theorem callbackWithRetry_pendingCount (cfg : RetryConfig) :
    (∀ trace, (callbackWithRetry cfg trace).pendingIncrements = 1) ∧
    (∀ trace,
      ((callbackWithRetryLoop cfg trace).outcome.isTerminal = true ↔
        (callbackWithRetryLoop cfg trace).pendingDecrements = 1) ∧
      ((callbackWithRetryLoop cfg trace).outcome = .stopped →
        (callbackWithRetryLoop cfg trace).pendingDecrements = 0)) ∧
    (∀ jobs : List (RetryConfig × List RetryIter),
      (∀ j ∈ jobs,
        (callbackWithRetryLoop j.1 j.2).outcome = .stopped ∨
        (callbackWithRetryLoop j.1 j.2).outcome.isTerminal = true) →
      pendingCallbacksCountAfter
          (jobs.map (fun j => callbackWithRetry j.1 j.2)) =
        ((jobs.filter
            (fun j => (callbackWithRetryLoop j.1 j.2).outcome = .stopped)).length :
          Int)) := by
  refine ⟨fun _ => rfl, ?_, ?_⟩
  · intro trace
    constructor
    · rw [loop_decrements_eq]
      by_cases h : (callbackWithRetryLoop cfg trace).outcome.isTerminal = true
      · simp [h]
      · simp [h]
    · intro hs
      rw [loop_decrements_eq, hs]
      simp [LoopOutcome.isTerminal]
  · intro jobs hjobs
    induction jobs with
    | nil => simp [pendingCallbacksCountAfter]
    | cons j js ih =>
      have hj := hjobs j (List.mem_cons_self j js)
      have hjs : ∀ x ∈ js,
          (callbackWithRetryLoop x.1 x.2).outcome = .stopped ∨
          (callbackWithRetryLoop x.1 x.2).outcome.isTerminal = true :=
        fun x hx => hjobs x (List.mem_cons_of_mem j hx)
      have hdec := loop_decrements_eq j.1 j.2
      have htail := ih hjs
      rcases hj with hj | hj
      · have h0 : (callbackWithRetryLoop j.1 j.2).pendingDecrements = 0 := by
          rw [hdec, hj]; simp [LoopOutcome.isTerminal]
        have hdelta : (callbackWithRetry j.1 j.2).pendingDelta = 1 := by
          simp [RetryRun.pendingDelta, callbackWithRetry, h0]
        simp only [pendingCallbacksCountAfter, List.map_cons, List.sum_cons,
          hdelta] at htail ⊢
        rw [htail, List.filter_cons, if_pos (by simp [hj])]
        simp only [List.length_cons]
        push_cast
        ring
      · have h1 : (callbackWithRetryLoop j.1 j.2).pendingDecrements = 1 := by
          rw [hdec, hj]; simp
        have hne : (callbackWithRetryLoop j.1 j.2).outcome ≠ .stopped := by
          intro h; rw [h] at hj; simp [LoopOutcome.isTerminal] at hj
        have hdelta : (callbackWithRetry j.1 j.2).pendingDelta = 0 := by
          simp [RetryRun.pendingDelta, callbackWithRetry, h1]
        simp only [pendingCallbacksCountAfter, List.map_cons, List.sum_cons,
          hdelta] at htail ⊢
        rw [htail, List.filter_cons, if_neg (by simp [hne])]
        ring

/-- Witness for `callbackWithRetry_pendingCount`: two runs, one halted by
the stop signal and one reaching a terminal success, leave the pending
counter at exactly one. -/
theorem callbackWithRetry_pendingCount_witness :
    pendingCallbacksCountAfter
        ([((⟨false, false, none, 600000, 0⟩ : RetryConfig),
            [(⟨true, .failure .other, true, .returns true, 100, 5000⟩ :
              RetryIter)]),
          ((⟨false, false, none, 600000, 0⟩ : RetryConfig),
            [(⟨false, .success 200 true, false, .returns true, 100, 5000⟩ :
              RetryIter)])].map
          (fun j => callbackWithRetry j.1 j.2)) = 1 :=
  (callbackWithRetry_pendingCount
      ⟨false, false, none, 600000, 0⟩).2.2
    [((⟨false, false, none, 600000, 0⟩ : RetryConfig),
        [(⟨true, .failure .other, true, .returns true, 100, 5000⟩ :
          RetryIter)]),
      ((⟨false, false, none, 600000, 0⟩ : RetryConfig),
        [(⟨false, .success 200 true, false, .returns true, 100, 5000⟩ :
          RetryIter)])]
    (by decide)

end CallbackRetry

namespace BlockWait

/-- Per-message cache/lock state touched by
`handleMessageFromMqWithBlockWait`: whether `messageProcessLock[messageId]`
is set, whether `cacheDb.setMessageFromMQ` has stored the raw message, and
whether `cacheDb.addMessageIdToProcessAtBlock` has stored the
height-keyed index entry. -/
structure CacheState where
  messageProcessLock : Bool
  msgStored : Bool
  idxStored : Bool
  deriving DecidableEq, Repr

/-- Error thrown by the chain-id guard of
`handleMessageFromMqWithBlockWait`. -/
inductive MqError where
  | unrecognizedMessageChainId
  deriving DecidableEq, Repr

/-- The function `handleMessageFromMqWithBlockWait` of the core module
(`src/unnamed/part_000`, lines 561-597).  `chainIdMatches` models
`tendermint.chainId === message.chain_id`, `hasSeenChain` the
`utils.hasSeenChain` lookup; `latestBlockHeightAtEntry` is the
`tendermint.latestBlockHeight` reading at line 574 and
`latestBlockHeightAtRecheck` the reading at line 586 (the two reads are
separated by the awaited persistence writes, during which the height may
advance).  Returns the function's boolean result together with the final
per-message cache/lock state. -/
def handleMessageFromMqWithBlockWait
    (chainIdMatches hasSeenChain : Bool)
    (latestBlockHeightAtEntry latestBlockHeightAtRecheck msgHeight : Nat)
    (s : CacheState) : Except MqError (Bool × CacheState) :=
  if !chainIdMatches && !hasSeenChain then
    .error .unrecognizedMessageChainId
  else if latestBlockHeightAtEntry ≤ msgHeight then
    let s1 : CacheState :=
      { s with messageProcessLock := true, msgStored := true, idxStored := true }
    if latestBlockHeightAtRecheck ≤ msgHeight then
      .ok (false, { s1 with messageProcessLock := false })
    else
      .ok (true, { s1 with msgStored := false, idxStored := false })
  else
    .ok (true, s)

/-- Counterexample to claim C3 as stated: with the node's observed height
equal to the message's declared height (`5 ≥ 5`, so the observed height
"covers" the message in the claim's sense), the function does not admit
immediately: it persists the raw message and the height-keyed index entry
and returns `false` (deferred), because the source defers whenever
`latestBlockHeight <= message.height` — admission requires the observed
height to strictly exceed the declared height. -/
theorem handleMessageFromMq_equalHeight_counterexample :
    5 ≥ 5 ∧
    handleMessageFromMqWithBlockWait true true 5 5 5 ⟨false, false, false⟩ =
      .ok (false, ⟨false, true, true⟩) :=
  ⟨by decide, rfl⟩

/-- Claim C3 (amended): for every recognized inbound message,
`handleMessageFromMqWithBlockWait` admits immediately — returning `true`
and leaving the cache state untouched — exactly when the observed height
at entry strictly exceeds the message's declared height; when the observed
height at entry is less than or equal to the declared height it persists
the raw message and the height-keyed index entry, and then: if the
re-checked observed height still does not exceed the declared height it
releases the per-message lock and returns `false` (deferred, records kept);
if the height advanced past the declared height during the persistence it
deletes both records and returns `true` (admitted, lock kept held). -/
theorem handleMessageFromMq_admit_defer (chainIdMatches hasSeenChain : Bool)
    (h1 h2 mh : Nat) (s : CacheState)
    (hchain : chainIdMatches = true ∨ hasSeenChain = true) :
    (mh < h1 →
      handleMessageFromMqWithBlockWait chainIdMatches hasSeenChain h1 h2 mh s =
        .ok (true, s)) ∧
    (h1 ≤ mh → h2 ≤ mh →
      handleMessageFromMqWithBlockWait chainIdMatches hasSeenChain h1 h2 mh s =
        .ok (false, ⟨false, true, true⟩)) ∧
    (h1 ≤ mh → mh < h2 →
      handleMessageFromMqWithBlockWait chainIdMatches hasSeenChain h1 h2 mh s =
        .ok (true, ⟨true, false, false⟩)) := by
  have hguard : (!chainIdMatches && !hasSeenChain) = false := by
    rcases hchain with h | h <;> simp [h]
  refine ⟨?_, ?_, ?_⟩
  · intro hlt
    have : ¬ h1 ≤ mh := by omega
    simp [handleMessageFromMqWithBlockWait, hguard, this]
  · intro hle1 hle2
    simp [handleMessageFromMqWithBlockWait, hguard, hle1, hle2]
  · intro hle1 hlt2
    have : ¬ h2 ≤ mh := by omega
    simp [handleMessageFromMqWithBlockWait, hguard, hle1, this]

/-- Witness for `handleMessageFromMq_admit_defer`: a message of height 5
arriving at observed height 5 with no advance during persistence is
deferred with both records persisted and the lock released. -/
theorem handleMessageFromMq_admit_defer_witness :
    handleMessageFromMqWithBlockWait true true 5 5 5 ⟨false, false, false⟩ =
      .ok (false, ⟨false, true, true⟩) :=
  (handleMessageFromMq_admit_defer true true 5 5 5 ⟨false, false, false⟩
      (Or.inl rfl)).2.1 (by decide) (by decide)

end BlockWait

namespace BlockGateRace

/-!
Interleaving model of the admission race for one fixed message whose
declared height exceeds the node's observed block height at arrival.

The arrival path is `handleMessageFromMqWithBlockWait`
(`src/unnamed/part_000`, lines 561-597), cut at its `await` boundaries;
on `return true` the caller enqueues the message's processing task and the
task's completion handler `releaseLock` clears the per-message lock
(`addMqMessageTaskToQueue`, lines 652-667).  The sweep path is the body of
`processMessageInBlocks` (lines 599-626) for the height range containing
this message: the synchronous lock check, the awaited
`getMessageFromMQ` read, and on admission the task whose completion
handler `releaseLockAndCleanUp` (lines 632-650) clears the lock and both
persisted records.

Heights are abstracted to the single comparison the code makes:
`latestAboveMsgHeight` is `tendermint.latestBlockHeight > message.height`
(the code defers while `latestBlockHeight <= message.height`).

Modelled from the spec: the caller that triggers `processMessageInBlocks`
is not part of the sources (it lives in the tendermint new-block event
handler).  Per the spec, the sweep for a range `[fromHeight, toHeight]` is
invoked when the node's observed height advances to cover that range, and
a deferred message keyed at height `h` is swept by the block event that
makes the observed height exceed `h` (matching the strict admission
comparison of the direct path); hence the `sweepTrigger` transition is
enabled only once `latestAboveMsgHeight` holds.
-/

/-- Program counter of the arrival path, split at its `await`
boundaries. -/
inductive ArrivalPC where
  | notStarted
  | persisting
  | deciding
  | removing
  | taskRunning
  | deferred
  | finished
  deriving DecidableEq, Repr, Fintype

/-- Program counter of the sweep path for this message. -/
inductive SweepPC where
  | idle
  | triggered
  | fetching
  | running
  | doneSkipped
  | doneAdmitted
  deriving DecidableEq, Repr, Fintype

/-- Shared state of the race: the height abstraction, the per-message
`messageProcessLock` entry, the two persisted records, the two program
counters, and the number of times the message has been admitted to the
task queue. -/
structure GateState where
  latestAboveMsgHeight : Bool
  messageProcessLock : Bool
  msgStored : Bool
  idxStored : Bool
  arrival : ArrivalPC
  sweep : SweepPC
  admitCount : Nat
  deriving DecidableEq, Repr

/-- Initial state: the message has not arrived, the observed height does
not exceed the message's height, nothing persisted, nothing admitted. -/
def init : GateState :=
  { latestAboveMsgHeight := false, messageProcessLock := false,
    msgStored := false, idxStored := false, arrival := .notStarted,
    sweep := .idle, admitCount := 0 }

/-- One atomic scheduling turn of the system.  `advance` is the
environment making the observed height pass the message's height (heights
only grow). -/
inductive GateStep : GateState → GateState → Prop where
  | advance (s : GateState) (h : s.latestAboveMsgHeight = false) :
      GateStep s { s with latestAboveMsgHeight := true }
  | arrivalLock (s : GateState) (h1 : s.arrival = .notStarted)
      (h2 : s.latestAboveMsgHeight = false) :
      GateStep s { s with arrival := .persisting, messageProcessLock := true }
  | arrivalPersist (s : GateState) (h : s.arrival = .persisting) :
      GateStep s
        { s with arrival := .deciding, msgStored := true, idxStored := true }
  | arrivalDefer (s : GateState) (h : s.arrival = .deciding)
      (h2 : s.latestAboveMsgHeight = false) :
      GateStep s { s with arrival := .deferred, messageProcessLock := false }
  | arrivalAdmitRecheck (s : GateState) (h : s.arrival = .deciding)
      (h2 : s.latestAboveMsgHeight = true) :
      GateStep s { s with arrival := .removing }
  | arrivalRemove (s : GateState) (h : s.arrival = .removing) :
      GateStep s { s with
        arrival := .taskRunning
        msgStored := false
        idxStored := false
        admitCount := s.admitCount + 1 }
  | arrivalRelease (s : GateState) (h : s.arrival = .taskRunning) :
      GateStep s { s with arrival := .finished, messageProcessLock := false }
  | sweepTrigger (s : GateState) (h1 : s.sweep = .idle)
      (h2 : s.latestAboveMsgHeight = true) :
      GateStep s { s with sweep := .triggered }
  | sweepSkipNoIdx (s : GateState) (h1 : s.sweep = .triggered)
      (h2 : s.idxStored = false) :
      GateStep s { s with sweep := .doneSkipped }
  | sweepSkipLock (s : GateState) (h1 : s.sweep = .triggered)
      (h2 : s.idxStored = true) (h3 : s.messageProcessLock = true) :
      GateStep s { s with sweep := .doneSkipped }
  | sweepFetch (s : GateState) (h1 : s.sweep = .triggered)
      (h2 : s.idxStored = true) (h3 : s.messageProcessLock = false) :
      GateStep s { s with sweep := .fetching }
  | sweepNull (s : GateState) (h1 : s.sweep = .fetching)
      (h2 : s.msgStored = false) :
      GateStep s { s with sweep := .doneSkipped }
  | sweepAdmit (s : GateState) (h1 : s.sweep = .fetching)
      (h2 : s.msgStored = true) :
      GateStep s { s with sweep := .running, admitCount := s.admitCount + 1 }
  | sweepCleanUp (s : GateState) (h : s.sweep = .running) :
      GateStep s { s with
        sweep := .doneAdmitted
        messageProcessLock := false
        msgStored := false
        idxStored := false }

/-- Reachability from the initial state. -/
inductive GateReach : GateState → Prop where
  | init : GateReach init
  | step {s s' : GateState} : GateReach s → GateStep s s' → GateReach s'

/-- Arrival phases in which the message has been admitted by the direct
path. -/
def arrivalAdmitted : ArrivalPC → Bool
  | .taskRunning => true
  | .finished => true
  | _ => false

/-- Arrival phases during which `messageProcessLock[messageId]` is held by
the arrival path. -/
def arrivalHoldsLock : ArrivalPC → Bool
  | .persisting => true
  | .deciding => true
  | .removing => true
  | .taskRunning => true
  | _ => false

/-- Arrival phases only reachable after the re-check observed an advanced
height. -/
def arrivalPastRecheck : ArrivalPC → Bool
  | .removing => true
  | .taskRunning => true
  | .finished => true
  | _ => false

/-- Sweep phases in which the sweep has admitted the message. -/
def sweepAdmitted : SweepPC → Bool
  | .running => true
  | .doneAdmitted => true
  | _ => false

/-- Whether the persisted raw message and index entry exist, as a function
of the two program counters. -/
def recordsStored : ArrivalPC → SweepPC → Bool
  | .deciding, _ => true
  | .removing, _ => true
  | .deferred, .doneAdmitted => false
  | .deferred, _ => true
  | _, _ => false

/-- Number of admissions determined by the two program counters. -/
def expectedCount (a : ArrivalPC) (w : SweepPC) : Nat :=
  (if arrivalAdmitted a then 1 else 0) + (if sweepAdmitted w then 1 else 0)

/-- Decidable part of the inductive invariant of the race, over the finite
fields of the state: monotone height facts, the lock discipline, the
record discipline, mutual exclusion of the two admitting paths, and the
phase constraints linking the two program counters. -/
def finInv (la lk ms ix : Bool) (ar : ArrivalPC) (sw : SweepPC) : Bool :=
  (!arrivalPastRecheck ar || la) &&
  (decide (sw = .idle) || la) &&
  (lk == arrivalHoldsLock ar) &&
  (ms == recordsStored ar sw) &&
  (ix == ms) &&
  (!arrivalAdmitted ar || !sweepAdmitted sw) &&
  (!(decide (sw = .fetching) || decide (sw = .running) ||
      decide (sw = .doneAdmitted)) || decide (ar = .deferred)) &&
  (!decide (ar = .deferred) || !decide (sw = .doneSkipped))

/-- Inductive invariant of the race. -/
def GateInv (s : GateState) : Prop :=
  finInv s.latestAboveMsgHeight s.messageProcessLock s.msgStored s.idxStored
      s.arrival s.sweep = true ∧
  s.admitCount = expectedCount s.arrival s.sweep

/-- Helper: every step preserves the invariant. -/
theorem gateStep_inv {s s' : GateState} (hst : GateStep s s') (h : GateInv s) :
    GateInv s' := by
  unfold GateInv at h ⊢
  rcases s with ⟨la, lk, ms, ix, ar, sw, n⟩
  obtain ⟨hf, hn⟩ := h
  cases hst <;>
    (try dsimp only at *) <;>
    refine ⟨?_, ?_⟩ <;>
    first
      | (clear hn
         revert hf
         revert la lk ms ix ar sw
         decide)
      | (rw [hn]; done)
      | (rw [hn]
         clear hn
         revert hf
         revert la lk ms ix ar sw
         decide)

/-- Helper: the invariant holds in every reachable state. -/
theorem gateReach_inv {s : GateState} (h : GateReach s) : GateInv s := by
  induction h with
  | init =>
    unfold GateInv
    exact ⟨by decide, by decide⟩
  | step _ hst ih => exact gateStep_inv hst ih

/-- Claim C2: for a message whose declared height exceeds the observed
height at arrival, in every reachable interleaving of the direct arrival
path, the block-advance sweep, and height advances: the message is
admitted to the task queue at most once; it is never admitted while the
observed height has not passed the message's height; and in every final
configuration in which the arrival path has completed (deferred or
admitted-and-released) and the sweep for the message's height has
completed, the message has been admitted exactly once — the per-message
lock and the persisted-record reads let exactly one of the two paths admit
while the other is a no-op. -/
theorem processMessageInBlocks_exactly_once (s : GateState)
    (h : GateReach s) :
    s.admitCount ≤ 1 ∧
    (1 ≤ s.admitCount → s.latestAboveMsgHeight = true) ∧
    ((s.arrival = .deferred ∨ s.arrival = .finished) →
      (s.sweep = .doneSkipped ∨ s.sweep = .doneAdmitted) →
      s.admitCount = 1) := by
  have hinv := gateReach_inv h
  unfold GateInv at hinv
  clear h
  rcases s with ⟨la, lk, ms, ix, ar, sw, n⟩
  obtain ⟨hf, hn⟩ := hinv
  dsimp only at hf hn ⊢
  subst hn
  refine ⟨?_, ?_, ?_⟩ <;>
    (revert hf
     revert la lk ms ix ar sw
     decide)

/-- Witness for `processMessageInBlocks_exactly_once`: the interleaving in
which the message arrives below the observed height, is persisted and
deferred, the height then advances, and the sweep admits it and cleans up,
ends with the message admitted exactly once. -/
theorem processMessageInBlocks_exactly_once_witness :
    ({ latestAboveMsgHeight := true, messageProcessLock := false,
       msgStored := false, idxStored := false, arrival := .deferred,
       sweep := .doneAdmitted, admitCount := 1 } : GateState).admitCount
      = 1 := by
  have r1 : GateReach init := .init
  have r2 := r1.step (.arrivalLock _ rfl rfl)
  have r3 := r2.step (.arrivalPersist _ rfl)
  have r4 := r3.step (.arrivalDefer _ rfl rfl)
  have r5 := r4.step (.advance _ rfl)
  have r6 := r5.step (.sweepTrigger _ rfl rfl)
  have r7 := r6.step (.sweepFetch _ rfl rfl rfl)
  have r8 := r7.step (.sweepAdmit _ rfl rfl)
  have r9 := r8.step (.sweepCleanUp _ rfl)
  exact (processMessageInBlocks_exactly_once _ r9).2.2 (Or.inl rfl)
    (Or.inr rfl)

end BlockGateRace

namespace TaskQueue

/-!
Per-key task queue of the core module (`src/unnamed/part_000`, lines
683-846): `addTaskToQueue`, `executeTaskInQueue`, `onTaskExecutionFinished`
and `cleanUpQueue`, modelled for one key (`requestId`) as a transition
system.  The global maps `requestQueue`, `requestQueueRunning` and the
persistent queue are per-key, so distinct keys have disjoint state; the
global system is the pointwise product, with each scheduling turn touching
one key.

Task payloads (`callbackFnName`, `callbackArgs`, `onCallbackFinished`,
`onCallbackFinishedArgs`, `startTime`) are opaque to the queue engine,
which never inspects them; they are modelled as opaque identifiers.

Abstraction note: `addTaskToQueue` persists the task and then appends it
to the in-memory queue across one `await`, and `executeTaskInQueue`
initiates the head task and then removes its persisted record across one
`await`; no concurrent reader observes the persistent queue between those
write completions in normal operation (it is read back only by the
startup-recovery path), so each persist/remove is modelled as landing
atomically with the in-memory mutation of the same turn.
-/

/-- Opaque task identifier. -/
abbrev Task := Nat

/-- State of one key's queue.  `queue` is `requestQueue[requestId]`,
`persisted` the key's entries in the persistent queue, `running` the
`requestQueueRunning[requestId]` flag, `hasQueue` whether
`requestQueue[requestId]` exists (`!= null`).  `enqueued`, `started`,
`finished` and `executing` are history variables: all tasks ever enqueued
in order, all whose callback began executing in order, all whose
completion handler (`onCallbackFinished`) has returned in order, and those
currently executing. -/
structure QState where
  queue : List Task
  persisted : List Task
  running : Bool
  hasQueue : Bool
  enqueued : List Task
  started : List Task
  finished : List Task
  executing : List Task
  deriving DecidableEq, Repr

/-- State of a key never seen by `addTaskToQueue`. -/
def initQ : QState :=
  { queue := [], persisted := [], running := false, hasQueue := false,
    enqueued := [], started := [], finished := [], executing := [] }

/-- One scheduling turn acting on one key's state.

* `addTask` — `addTaskToQueue` (lines 683-717): create the in-memory queue
  entry when absent, persist the task, append it, schedule execution.
* `execute` — `executeTaskInQueue` with a non-empty queue and no running
  task (lines 719-775): shift the head task, set the running flag, begin
  executing its callback, and remove its record from the head of the
  persistent queue.
* `executeEmptyQueue` — `executeTaskInQueue` when the shifted queue is
  empty (lines 776-778): `cleanUpQueue`.
* `finishTask` — `onTaskExecutionFinished` (lines 797-819): the task's
  callback has settled, the completion handler runs and returns, the
  running flag is cleared, and the queue entry is destroyed exactly when
  the queue is now empty (`cleanUpQueue`, lines 839-846); otherwise the
  next execution turn is scheduled. -/
inductive KStep : QState → QState → Prop where
  | addTask (q : QState) (t : Task) :
      KStep q { q with
        queue := q.queue ++ [t]
        persisted := q.persisted ++ [t]
        hasQueue := true
        enqueued := q.enqueued ++ [t] }
  | execute (q : QState) (t : Task) (ts : List Task)
      (hq : q.hasQueue = true) (hr : q.running = false)
      (hqueue : q.queue = t :: ts) :
      KStep q { q with
        queue := ts
        persisted := q.persisted.tail
        running := true
        started := q.started ++ [t]
        executing := q.executing ++ [t] }
  | executeEmptyQueue (q : QState) (hq : q.hasQueue = true)
      (hr : q.running = false) (hqueue : q.queue = []) :
      KStep q { q with hasQueue := false }
  | finishTask (q : QState) (t : Task) (hr : q.running = true)
      (hex : q.executing = [t]) :
      KStep q { q with
        running := false
        executing := []
        finished := q.finished ++ [t]
        hasQueue := if q.queue.isEmpty then false else q.hasQueue }

/-- Reachability of one key's state. -/
inductive KReach : QState → Prop where
  | init : KReach initQ
  | step {q q' : QState} : KReach q → KStep q q' → KReach q'

/-- Inductive invariant of one key's queue. -/
def QInv (q : QState) : Prop :=
  q.enqueued = q.finished ++ (q.executing ++ q.queue) ∧
  q.started = q.finished ++ q.executing ∧
  q.persisted = q.queue ∧
  (q.running = false → q.executing = []) ∧
  (q.running = true → q.executing.length = 1) ∧
  (q.hasQueue = false → q.queue = [] ∧ q.running = false)

/-- Helper: every per-key step preserves the invariant. -/
theorem kStep_inv {q q' : QState} (hst : KStep q q') (h : QInv q) :
    QInv q' := by
  obtain ⟨h1, h2, h3, h4, h5, h6⟩ := h
  cases hst with
  | addTask t =>
    refine ⟨?_, h2, ?_, h4, h5, ?_⟩
    · show q.enqueued ++ [t] =
        q.finished ++ (q.executing ++ (q.queue ++ [t]))
      rw [h1]
      simp
    · show q.persisted ++ [t] = q.queue ++ [t]
      rw [h3]
    · intro hcontra
      simp at hcontra
  | execute t ts hq hr hqueue =>
    have hex : q.executing = [] := h4 hr
    refine ⟨?_, ?_, ?_, ?_, ?_, ?_⟩
    · show q.enqueued = q.finished ++ ((q.executing ++ [t]) ++ ts)
      rw [h1, hqueue, hex]
      simp
    · show q.started ++ [t] = q.finished ++ (q.executing ++ [t])
      rw [h2, hex]
      simp
    · show q.persisted.tail = ts
      rw [h3, hqueue]
      rfl
    · intro hcontra
      simp at hcontra
    · intro _
      show (q.executing ++ [t]).length = 1
      rw [hex]
      rfl
    · show q.hasQueue = false → ts = [] ∧ true = false
      rw [hq]
      intro hcontra
      simp at hcontra
  | executeEmptyQueue hq hr hqueue =>
    refine ⟨h1, h2, h3, h4, h5, ?_⟩
    intro _
    exact ⟨hqueue, hr⟩
  | finishTask t hr hex =>
    refine ⟨?_, ?_, h3, ?_, ?_, ?_⟩
    · show q.enqueued = (q.finished ++ [t]) ++ ([] ++ q.queue)
      rw [h1, hex]
      simp
    · show q.started = (q.finished ++ [t]) ++ []
      rw [h2, hex]
      simp
    · intro _
      rfl
    · intro hcontra
      simp at hcontra
    · show (if q.queue.isEmpty then false else q.hasQueue) = false →
        q.queue = [] ∧ false = false
      cases hqe : q.queue with
      | nil =>
        intro _
        exact ⟨rfl, rfl⟩
      | cons a l =>
        simp only [hqe, List.isEmpty_cons, Bool.false_eq_true, if_false]
        intro hfq
        obtain ⟨h0, -⟩ := h6 hfq
        rw [hqe] at h0
        cases h0

/-- Helper: the invariant holds in every reachable per-key state. -/
theorem kReach_inv {q : QState} (h : KReach q) : QInv q := by
  induction h with
  | init =>
    refine ⟨rfl, rfl, rfl, ?_, ?_, ?_⟩
    · intro _
      rfl
    · intro h
      exact nomatch h
    · intro _
      exact ⟨rfl, rfl⟩
  | step _ hst ih => exact kStep_inv hst ih

/-- Global state of the task queue: one `QState` per key (request id). -/
def GQState := Nat → QState

/-- Global initial state: no key has ever been enqueued. -/
def gInitQ : GQState := fun _ => initQ

/-- One global scheduling turn: a per-key step at one key, leaving every
other key untouched (the maps `requestQueue`, `requestQueueRunning` and
the persistent queue are keyed by request id, so a turn for one request
reads and writes only that key's entries). -/
inductive GQStep : GQState → GQState → Prop where
  | step (g : GQState) (k : Nat) (q' : QState) (h : KStep (g k) q') :
      GQStep g (Function.update g k q')

/-- Reachability of global task-queue states. -/
inductive GQReach : GQState → Prop where
  | init : GQReach gInitQ
  | step {g g' : GQState} : GQReach g → GQStep g g' → GQReach g'

/-- Helper: every key of a reachable global state is in a reachable
per-key state. -/
theorem gQReach_kReach {g : GQState} (h : GQReach g) : ∀ k, KReach (g k) := by
  induction h with
  | init => intro k; exact KReach.init
  | step _ hst ih =>
    cases hst with
    | step k q' hk =>
      intro k'
      by_cases hkk : k' = k
      · subst hkk
        rw [Function.update_same]
        exact (ih k').step hk
      · rw [Function.update_noteq hkk]
        exact ih k'

/-- State of a key right after its first task `t` is enqueued. -/
def enqueuedQ (t : Task) : QState :=
  { queue := [t], persisted := [t], running := false, hasQueue := true,
    enqueued := [t], started := [], finished := [], executing := [] }

/-- State of a key whose single enqueued task `t` is executing. -/
def runningQ (t : Task) : QState :=
  { queue := [], persisted := [], running := true, hasQueue := true,
    enqueued := [t], started := [t], finished := [], executing := [t] }

/-- Helper: enqueueing into a fresh key. -/
theorem kStep_enqueue (t : Task) : KStep initQ (enqueuedQ t) :=
  KStep.addTask initQ t

/-- Helper: dispatching the single enqueued task. -/
theorem kStep_execute (t : Task) : KStep (enqueuedQ t) (runningQ t) :=
  KStep.execute (enqueuedQ t) t [] rfl rfl rfl

/-- Helper: for any finite set of distinct keys there is a reachable
global state in which each of those keys has a task executing (and every
other key is untouched). -/
theorem parallel_keys_reachable :
    ∀ ks : List Nat, ks.Nodup →
      ∃ g : GQState, GQReach g ∧ (∀ k ∈ ks, g k = runningQ 0) ∧
        (∀ k, k ∉ ks → g k = initQ) := by
  intro ks
  induction ks with
  | nil =>
    intro _
    exact ⟨gInitQ, GQReach.init, by simp, fun _ _ => rfl⟩
  | cons k ks ih =>
    intro hnd
    obtain ⟨hk, hnd2⟩ := List.nodup_cons.mp hnd
    obtain ⟨g, hg, hmem, hout⟩ := ih hnd2
    have hgk : g k = initQ := hout k hk
    have s1 : GQStep g (Function.update g k (enqueuedQ 0)) :=
      GQStep.step g k (enqueuedQ 0) (by rw [hgk]; exact kStep_enqueue 0)
    have s2 : GQStep (Function.update g k (enqueuedQ 0))
        (Function.update (Function.update g k (enqueuedQ 0)) k (runningQ 0)) :=
      GQStep.step _ k (runningQ 0)
        (by rw [Function.update_same]; exact kStep_execute 0)
    refine ⟨_, (hg.step s1).step s2, ?_, ?_⟩
    · intro k' hk'
      rcases List.mem_cons.mp hk' with rfl | hk'
      · simp [Function.update_same]
      · have hne : k' ≠ k := fun hkk => hk (hkk ▸ hk')
        rw [Function.update_noteq hne, Function.update_noteq hne]
        exact hmem k' hk'
    · intro k' hk'
      have hne : k' ≠ k := fun hkk => hk' (hkk ▸ List.mem_cons_self k ks)
      have hnotin : k' ∉ ks := fun hin => hk' (List.mem_cons_of_mem k hin)
      rw [Function.update_noteq hne, Function.update_noteq hne]
      exact hout k' hnotin

/-- Claim C1: for every key and every sequence of tasks enqueued for that
key via `addTaskToQueue`, tasks execute in strict FIFO order and never
overlap.  In every reachable per-key state: the completion handlers that
have returned are a prefix of the tasks that started, which in turn are a
prefix of the tasks enqueued, all in enqueue order; at most one task is
executing at any time; and whenever a step starts a new task, every
previously started task's completion handler has already returned — so
task N+1 never begins before task N's `onCallbackFinished` has fully
returned.  A global scheduling turn at one key leaves every other key's
state unchanged, and any finite set of distinct keys can simultaneously
have tasks executing — dispatch across keys is unbounded-parallel. -/
theorem executeTaskInQueue_fifo_no_overlap :
    (∀ q : QState, KReach q →
      q.started = q.finished ++ q.executing ∧
      q.enqueued = q.started ++ q.queue ∧
      q.executing.length ≤ 1) ∧
    (∀ q q' : QState, KReach q → KStep q q' → q.started ≠ q'.started →
      q.finished = q.started) ∧
    (∀ g : GQState, GQReach g → ∀ k, KReach (g k)) ∧
    (∀ (g : GQState) (k : Nat) (q' : QState), KStep (g k) q' →
      ∀ k', k' ≠ k → Function.update g k q' k' = g k') ∧
    (∀ ks : List Nat, ks.Nodup →
      ∃ g : GQState, GQReach g ∧ ∀ k ∈ ks, (g k).executing ≠ []) := by
  refine ⟨?_, ?_, ?_, ?_, ?_⟩
  · intro q hq
    obtain ⟨h1, h2, h3, h4, h5, h6⟩ := kReach_inv hq
    refine ⟨h2, ?_, ?_⟩
    · rw [h1, h2]
      simp
    · cases hrun : q.running with
      | false => rw [h4 hrun]; simp
      | true => rw [h5 hrun]
  · intro q q' hq hst hne
    obtain ⟨h1, h2, h3, h4, h5, h6⟩ := kReach_inv hq
    cases hst with
    | addTask t => exact absurd rfl hne
    | execute t ts hqx hr hqueue => rw [h2, h4 hr]; simp
    | executeEmptyQueue hqx hr hqueue => exact absurd rfl hne
    | finishTask t hr hex => exact absurd rfl hne
  · exact fun g hg => gQReach_kReach hg
  · intro g k q' _ k' hne
    exact Function.update_noteq hne q' g
  · intro ks hnd
    obtain ⟨g, hg, hmem, -⟩ := parallel_keys_reachable ks hnd
    refine ⟨g, hg, ?_⟩
    intro k hk
    rw [hmem k hk]
    intro hcontra
    cases hcontra

/-- Witness for `executeTaskInQueue_fifo_no_overlap`: the prefix and
no-overlap facts evaluated at the initial state of a key. -/
theorem executeTaskInQueue_fifo_no_overlap_witness :
    initQ.started = initQ.finished ++ initQ.executing ∧
    initQ.enqueued = initQ.started ++ initQ.queue ∧
    initQ.executing.length ≤ 1 :=
  executeTaskInQueue_fifo_no_overlap.1 initQ KReach.init

/-- State of a key after its single task `t` finished and the queue was
cleaned up. -/
def drainedQ (t : Task) : QState :=
  { queue := [], persisted := [], running := false, hasQueue := false,
    enqueued := [t], started := [t], finished := [t], executing := [] }

/-- Claim C8: for every key, when the last queued task for that key
completes, the key's in-memory queue structure is deleted (`cleanUpQueue`
runs, which also decrements `requestsInQueueCount`), and no persisted task
record remains for that key: any reachable step that clears the running
flag with an empty in-memory queue destroys the queue structure (which
existed before the step) and leaves the key's persistent queue empty —
because each task's persisted record is removed at the moment the task is
taken from the head of the queue and begins executing, as the second
conjunct states. -/
theorem cleanUpQueue_drains_persistent :
    (∀ q q' : QState, KReach q → KStep q q' → q.running = true →
      q'.running = false → q.queue = [] →
      q.hasQueue = true ∧ q'.hasQueue = false ∧ q'.persisted = [] ∧
        q'.queue = []) ∧
    (∀ q q' : QState, KReach q → KStep q q' → q.started ≠ q'.started →
      q.persisted ≠ [] ∧ q'.persisted = q.persisted.tail) := by
  constructor
  · intro q q' hq hst hrun hrun' hempty
    obtain ⟨h1, h2, h3, h4, h5, h6⟩ := kReach_inv hq
    cases hst with
    | addTask t =>
      rw [hrun] at hrun'
      cases hrun'
    | execute t ts hqx hr hqueue =>
      rw [hrun] at hr
      cases hr
    | executeEmptyQueue hqx hr hqueue =>
      rw [hrun] at hr
      cases hr
    | finishTask t hr hex =>
      have hhq : q.hasQueue = true := by
        cases hh : q.hasQueue with
        | true => rfl
        | false =>
          obtain ⟨-, hr0⟩ := h6 hh
          rw [hrun] at hr0
          cases hr0
      refine ⟨hhq, ?_, ?_, hempty⟩
      · show (if q.queue.isEmpty then false else q.hasQueue) = false
        rw [hempty]
        rfl
      · show q.persisted = []
        rw [h3, hempty]
  · intro q q' hq hst hne
    obtain ⟨h1, h2, h3, h4, h5, h6⟩ := kReach_inv hq
    cases hst with
    | addTask t => exact absurd rfl hne
    | execute t ts hqx hr hqueue =>
      constructor
      · rw [h3, hqueue]
        intro hcontra
        cases hcontra
      · rfl
    | executeEmptyQueue hqx hr hqueue => exact absurd rfl hne
    | finishTask t hr hex => exact absurd rfl hne

/-- Witness for `cleanUpQueue_drains_persistent`: a key whose single task
finishes ends with its queue structure destroyed and its persistent queue
empty. -/
theorem cleanUpQueue_drains_persistent_witness :
    (runningQ 0).hasQueue = true ∧ (drainedQ 0).hasQueue = false ∧
      (drainedQ 0).persisted = [] ∧ (drainedQ 0).queue = [] :=
  cleanUpQueue_drains_persistent.1 (runningQ 0) (drainedQ 0)
    ((KReach.init.step (kStep_enqueue 0)).step (kStep_execute 0))
    (KStep.finishTask (runningQ 0) 0 rfl rfl) rfl rfl rfl

end TaskQueue
